import Mathlib

/-!
Verification of the chip-scanning / report-generation core of the
Stock_War_Room_v2 repository.

Shallow embedding conventions:
* pandas numeric values (Python floats) are embedded as rationals (`ℚ`);
* a pandas `NaN` cell (missing value) is embedded as `none : Option ℚ`;
* a pandas DataFrame is embedded column-major as lists of values, together
  with a row count where the frame shape matters;
* Python `int(x)` truncation toward zero on a float is `truncQ`;
* fallible code is embedded with `Option` / `Except`.
All definitions are translated from the Python source files
`src/utils/tw_chip_scanner.py`, `src/utils/data_engine.py` and
`src/generate_monthly_report.py`; the file and line of each translated
function is recorded in its doc comment.
-/

namespace StockWarRoom

/-- Decidable strict positivity on rationals, the `v > 0` test of the scanner. -/
def posB (v : ℚ) : Bool := decide (0 < v)

/-- Decidable strict negativity on rationals, the `v < 0` test of the scanner. -/
def negB (v : ℚ) : Bool := decide (v < 0)

/-- Python `int(x)` on a rational: truncation toward zero
(`Int` division in Lean truncates toward zero). -/
def truncQ (q : ℚ) : ℤ := q.num / (q.den : ℤ)

/-- The sequential scan of `scan_consecutive_buys`
(`src/utils/tw_chip_scanner.py` lines 129-149), acting on the already
reversed list of daily net-buy values: while the value is strictly
positive, increment the streak and add the value to the accumulator;
a zero or negative value stops the scan (`break`). -/
def streakScanPos : List ℚ → Nat × ℚ
  | [] => (0, 0)
  | v :: rest =>
    if posB v then ((streakScanPos rest).1 + 1, (streakScanPos rest).2 + v)
    else (0, 0)

/-- Streak and accumulated total of a net-buy column, scanning the daily
values from the most recent day backwards (`for v in reversed(vals)`),
from `scan_consecutive_buys` (`src/utils/tw_chip_scanner.py` lines 129-149). -/
def consecStreakAccum (vals : List ℚ) : Nat × ℚ := streakScanPos vals.reverse

/-- The maximal suffix of a list all of whose elements satisfy `p`
(specification-side notion used to characterise the streak scans). -/
def maxSuffix (p : ℚ → Bool) (l : List ℚ) : List ℚ :=
  (l.reverse.takeWhile p).reverse

/-- The loop of the signed streak helper `_streak` in `calc_chip_strength`
(`src/utils/tw_chip_scanner.py` lines 290-295): count values matching the
direction test until the first mismatch (`break`). -/
def dirCount (ok : ℚ → Bool) : List ℚ → Nat
  | [] => 0
  | v :: rest => if ok v then dirCount ok rest + 1 else 0

/-- The signed streak helper `_streak` of `calc_chip_strength`
(`src/utils/tw_chip_scanner.py` lines 283-296).  The series is a pandas
column possibly containing NaN (`Option ℚ`); `dropna` is `filterMap id`.
Direction is `1` if the last value is strictly positive, else `-1`;
the loop counts, from the most recent value backwards, values that are
strictly positive (direction `1`) resp. strictly negative (direction `-1`),
and the result is `count * direction`. -/
def signedStreak (series : List (Option ℚ)) : ℤ :=
  let vals := series.filterMap id
  match vals.getLast? with
  | none => 0
  | some lastV =>
    let d : ℤ := if 0 < lastV then 1 else -1
    let cnt := dirCount (fun v => if 0 < d then posB v else negB v) vals.reverse
    (cnt : ℤ) * d

/- ── helper lemmas (shared) ───────────────────────────────────────────── -/

theorem streakScanPos_eq (l : List ℚ) :
    streakScanPos l = ((l.takeWhile posB).length, (l.takeWhile posB).sum) := by
  induction l with
  | nil => rfl
  | cons v rest ih =>
    by_cases h : posB v
    · simp [streakScanPos, h, List.takeWhile_cons, ih]
      ring
    · simp [streakScanPos, h, List.takeWhile_cons]

theorem dirCount_eq (ok : ℚ → Bool) (l : List ℚ) :
    dirCount ok l = (l.takeWhile ok).length := by
  induction l with
  | nil => rfl
  | cons v rest ih =>
    by_cases h : ok v
    · simp [dirCount, h, List.takeWhile_cons, ih]
    · simp [dirCount, h, List.takeWhile_cons]

theorem maxSuffix_is_a_suffix (p : ℚ → Bool) (l : List ℚ) :
    ∃ t, t ++ maxSuffix p l = l := by
  refine ⟨(l.reverse.dropWhile p).reverse, ?_⟩
  have h := List.takeWhile_append_dropWhile (p := p) (l := l.reverse)
  calc (l.reverse.dropWhile p).reverse ++ (l.reverse.takeWhile p).reverse
      = (l.reverse.takeWhile p ++ l.reverse.dropWhile p).reverse := by
        rw [List.reverse_append]
    _ = l := by rw [h, List.reverse_reverse]

theorem maxSuffix_mem (p : ℚ → Bool) (l : List ℚ) :
    ∀ v ∈ maxSuffix p l, p v = true := by
  intro v hv
  rw [maxSuffix, List.mem_reverse] at hv
  exact List.mem_takeWhile_imp hv

theorem length_le_takeWhile_of_all (p : ℚ → Bool) (a b : List ℚ)
    (h : ∀ v ∈ a, p v = true) : a.length ≤ ((a ++ b).takeWhile p).length := by
  induction a with
  | nil => simp
  | cons x xs ih =>
    have hx : p x = true := h x (by simp)
    simp only [List.cons_append, List.takeWhile_cons, hx, if_true,
      List.length_cons]
    have := ih (fun v hv => h v (by simp [hv]))
    omega

theorem maxSuffix_maximal (p : ℚ → Bool) (l s : List ℚ)
    (hs : ∃ t, t ++ s = l) (hall : ∀ v ∈ s, p v = true) :
    s.length ≤ (maxSuffix p l).length := by
  obtain ⟨t, ht⟩ := hs
  have hrev : l.reverse = s.reverse ++ t.reverse := by
    rw [← ht, List.reverse_append]
  have hall' : ∀ v ∈ s.reverse, p v = true := by
    intro v hv; exact hall v (List.mem_reverse.mp hv)
  have := length_le_takeWhile_of_all p s.reverse t.reverse hall'
  rw [← hrev] at this
  simpa [maxSuffix] using this

/- ── pivoted chip history and the consecutive-buy scanner ─────────────── -/

/-- A pivoted chip-history table as produced by `_fetch_chip_history`
(`src/utils/tw_chip_scanner.py` lines 29-51): index = dates
(`ndays` rows, sorted), one column per institutional-investor name,
`fill_value=0` so cells are plain rationals.  Columns are pre-sorted by
`_resolve_columns` (lines 54-60) into the foreign-investor column, the
investment-trust column (each present or absent) and the dealer columns;
any remaining columns are kept in `otherCols`. -/
structure Pivot where
  ndays : Nat
  foreignCol : Option (List ℚ)
  trustCol : Option (List ℚ)
  dealerCols : List (List ℚ)
  otherCols : List (List ℚ)

/-- All columns of a pivot, in a single list. -/
def Pivot.allCols (p : Pivot) : List (List ℚ) :=
  p.foreignCol.toList ++ p.trustCol.toList ++ p.dealerCols ++ p.otherCols

/-- The last `n` rows of one column of a frame with `ndays` rows
(pandas `DataFrame.tail(n)` restricted to that column). -/
def tailCol (ndays n : Nat) (c : List ℚ) : List ℚ := c.drop (ndays - n)

/-- The last entry of a column (`series.iloc[-1]`), `0` on an empty column. -/
def lastEntry (c : List ℚ) : ℚ := c.getLast?.getD 0

/-- One output row of `scan_consecutive_buys`
(`src/utils/tw_chip_scanner.py` lines 172-181). -/
structure ConsecRow where
  stock : String
  fStreak : Nat
  fAccum : ℤ
  tStreak : Nat
  tAccum : ℤ
  totalLatest : ℤ
  maxSource : String
  tag : String
deriving DecidableEq

/-- Foreign streak and accumulator of one pivot
(`src/utils/tw_chip_scanner.py` lines 129-138), `(0, 0)` when no
foreign-investor column was resolved. -/
def foreignStreakAccum (p : Pivot) : Nat × ℚ :=
  match p.foreignCol with
  | some c => consecStreakAccum c
  | none => (0, 0)

/-- Trust streak and accumulator of one pivot
(`src/utils/tw_chip_scanner.py` lines 141-149), `(0, 0)` when no
investment-trust column was resolved. -/
def trustStreakAccum (p : Pivot) : Nat × ℚ :=
  match p.trustCol with
  | some c => consecStreakAccum c
  | none => (0, 0)

/-- Latest-day total of the three institutional parties
(`src/utils/tw_chip_scanner.py` lines 151-157). -/
def latestTotal (p : Pivot) : ℚ :=
  (match p.foreignCol with | some c => lastEntry c | none => 0)
    + (match p.trustCol with | some c => lastEntry c | none => 0)
    + (p.dealerCols.map lastEntry).sum

/-- Tag of a kept row (`src/utils/tw_chip_scanner.py` lines 162-180);
the `tags` list always holds exactly one string here, so the final
`" | ".join(tags)` is that string itself. -/
def consecTag (n fs ts : Nat) : String :=
  if n ≤ fs ∧ n ≤ ts then "🔥 土洋同步連買"
  else if n ≤ fs then "🌍 外資連買"
  else "🏦 投信連買"

/-- The per-stock body of the `scan_consecutive_buys` loop
(`src/utils/tw_chip_scanner.py` lines 122-181): skip the stock when the
pivot is empty or has fewer rows than `consecutive_days`; compute the
foreign / trust streak and accumulator with the backwards scan (streak `0`
when the column is absent); take the latest-day three-party total; keep
the stock only when at least one streak reaches the threshold, with the
tag, strongest-source and truncated integer fields of the source. -/
def scanOne (n : Nat) (sp : String × Pivot) : Option ConsecRow :=
  let sid := sp.1
  let p := sp.2
  if p.ndays = 0 ∨ p.ndays < n then none
  else
    let fsa := foreignStreakAccum p
    let tsa := trustStreakAccum p
    if n ≤ fsa.1 ∨ n ≤ tsa.1 then
      some ⟨sid, fsa.1, truncQ fsa.2, tsa.1, truncQ tsa.2,
            truncQ (latestTotal p),
            if tsa.1 ≤ fsa.1 then "外資" else "投信",
            consecTag n fsa.1 tsa.1⟩
    else none

/-- Sort key of the final `sort_values` in `scan_consecutive_buys`
(`src/utils/tw_chip_scanner.py` line 186): foreign streak + trust streak. -/
def consecKey (r : ConsecRow) : Nat := r.fStreak + r.tStreak

/-- Insertion of a row into a list sorted by non-increasing `consecKey`. -/
def insertRowDesc (r : ConsecRow) : List ConsecRow → List ConsecRow
  | [] => [r]
  | x :: xs =>
    if consecKey x ≤ consecKey r then r :: x :: xs
    else x :: insertRowDesc r xs

/-- Sorting of the result rows by non-increasing `consecKey`
(`df.sort_values('_sort', ascending=False)`,
`src/utils/tw_chip_scanner.py` lines 186-187). -/
def sortRowsDesc : List ConsecRow → List ConsecRow
  | [] => []
  | r :: rs => insertRowDesc r (sortRowsDesc rs)

/-- `scan_consecutive_buys` (`src/utils/tw_chip_scanner.py` lines 111-189)
over an in-memory list of (stock id, fetched pivot) pairs: per-stock scan,
filter, then descending sort by streak sum. -/
def scanConsecutiveBuys (n : Nat) (stocks : List (String × Pivot)) :
    List ConsecRow :=
  sortRowsDesc (stocks.filterMap (scanOne n))

/- ── helper lemmas for the sorter ─────────────────────────────────────── -/

theorem mem_insertRowDesc (r x : ConsecRow) (l : List ConsecRow) :
    x ∈ insertRowDesc r l ↔ x = r ∨ x ∈ l := by
  induction l with
  | nil => simp [insertRowDesc]
  | cons a as ih =>
    by_cases h : consecKey a ≤ consecKey r
    · simp [insertRowDesc, h]
    · simp [insertRowDesc, h, ih]
      tauto

theorem mem_sortRowsDesc (x : ConsecRow) (l : List ConsecRow) :
    x ∈ sortRowsDesc l ↔ x ∈ l := by
  induction l with
  | nil => simp [sortRowsDesc]
  | cons a as ih =>
    simp [sortRowsDesc, mem_insertRowDesc, ih]

theorem pairwise_insertRowDesc (r : ConsecRow) (l : List ConsecRow)
    (h : l.Pairwise (fun a b => consecKey b ≤ consecKey a)) :
    (insertRowDesc r l).Pairwise (fun a b => consecKey b ≤ consecKey a) := by
  induction l with
  | nil => simp [insertRowDesc]
  | cons a as ih =>
    rcases List.pairwise_cons.mp h with ⟨ha, has⟩
    by_cases hk : consecKey a ≤ consecKey r
    · rw [insertRowDesc, if_pos hk]
      refine List.pairwise_cons.mpr ⟨?_, h⟩
      intro b hb
      rcases List.mem_cons.mp hb with hb | hb
      · exact hb ▸ hk
      · exact le_trans (ha b hb) hk
    · rw [insertRowDesc, if_neg hk]
      refine List.pairwise_cons.mpr ⟨?_, ih has⟩
      intro b hb
      rcases (mem_insertRowDesc r b as).mp hb with hb | hb
      · exact hb ▸ Nat.le_of_not_le hk
      · exact ha b hb

theorem pairwise_sortRowsDesc (l : List ConsecRow) :
    (sortRowsDesc l).Pairwise (fun a b => consecKey b ≤ consecKey a) := by
  induction l with
  | nil => simp [sortRowsDesc]
  | cons a as ih => exact pairwise_insertRowDesc a _ ih

/- ── chip concentration (scan_chip_concentration) ─────────────────────── -/

/-- Foreign net-buy sum over the last `n` rows
(`tail[foreign_col].sum() if foreign_col else 0`,
`src/utils/tw_chip_scanner.py` line 215). -/
def foreignSum (p : Pivot) (n : Nat) : ℚ :=
  match p.foreignCol with
  | some c => (tailCol p.ndays n c).sum
  | none => 0

/-- Trust net-buy sum over the last `n` rows
(`src/utils/tw_chip_scanner.py` line 216). -/
def trustSum (p : Pivot) (n : Nat) : ℚ :=
  match p.trustCol with
  | some c => (tailCol p.ndays n c).sum
  | none => 0

/-- Dealer net-buy sum over the last `n` rows
(`sum(tail[c].sum() for c in dealer_cols) if dealer_cols else 0`,
`src/utils/tw_chip_scanner.py` line 217). -/
def dealerSum (p : Pivot) (n : Nat) : ℚ :=
  (p.dealerCols.map (fun c => (tailCol p.ndays n c).sum)).sum

/-- Value of row `i` of the pivot summed across all columns
(`tail.sum(axis=1)` at one row). -/
def rowTotal (p : Pivot) (i : Nat) : ℚ :=
  (p.allCols.map (fun c => c.getD i 0)).sum

/-- Absolute per-day row totals of the last `n` rows
(`daily_totals = tail.sum(axis=1).abs()`,
`src/utils/tw_chip_scanner.py` line 222). -/
def dailyTotalsAbs (p : Pivot) (n : Nat) : List ℚ :=
  ((List.range p.ndays).drop (p.ndays - n)).map (fun i => |rowTotal p i|)

/-- Mean of a pandas Series: `NaN` (here `none`) on an empty series,
otherwise sum / length. -/
def meanQ (l : List ℚ) : Option ℚ :=
  if l.isEmpty then none else some (l.sum / (l.length : ℚ))

/-- Denominator of the concentration score
(`avg_daily = daily_totals.mean() if daily_totals.mean() != 0 else 1`,
`src/utils/tw_chip_scanner.py` line 223).  A `NaN` mean compares unequal
to `0` in Python, so `avg_daily` stays `NaN` (`none`) in that case. -/
def avgDaily (p : Pivot) (n : Nat) : Option ℚ :=
  match meanQ (dailyTotalsAbs p n) with
  | none => none
  | some m => if m ≠ 0 then some m else some 1

/-- Whether the fallback branch of line 224
(`concentration = ... if avg_daily > 0 else 0`) is taken: it is taken
exactly when `avg_daily > 0` fails, which for a `NaN` (`none`) `avg_daily`
is the case since every Python comparison with `NaN` is false. -/
def concFallbackTaken (p : Pivot) (n : Nat) : Bool :=
  match avgDaily p n with
  | some a => decide (¬ 0 < a)
  | none => true

/-- The concentration score of one stock in `scan_chip_concentration`
(`src/utils/tw_chip_scanner.py` lines 213-224):
`(total_sum / avg_daily) * 100 if avg_daily > 0 else 0`. -/
def concentration (p : Pivot) (n : Nat) : ℚ :=
  let totalSum := foreignSum p n + trustSum p n + dealerSum p n
  match avgDaily p n with
  | some a => if 0 < a then (totalSum / a) * 100 else 0
  | none => 0

/-- Modelled from the words of claim C2 (refinement target): the
concentration-ratio score equals the institutional net-buy total of the
window divided by the mean of the absolute per-day row totals of the same
window — with the denominator replaced by `1` when that mean is zero —
multiplied by `100`. -/
def concentrationSpec (p : Pivot) (n : Nat) : ℚ :=
  let m := (dailyTotalsAbs p n).sum / ((dailyTotalsAbs p n).length : ℚ)
  let d := if m = 0 then 1 else m
  ((foreignSum p n + trustSum p n + dealerSum p n) / d) * 100

theorem scanOne_eq_some (n : Nat) (sid : String) (p : Pivot) (r : ConsecRow)
    (h : scanOne n (sid, p) = some r) :
    r.fStreak = (foreignStreakAccum p).1 ∧
    r.fAccum = truncQ (foreignStreakAccum p).2 ∧
    r.tStreak = (trustStreakAccum p).1 ∧
    r.tAccum = truncQ (trustStreakAccum p).2 ∧
    (n ≤ r.fStreak ∨ n ≤ r.tStreak) ∧
    r.tag = consecTag n r.fStreak r.tStreak := by
  rw [scanOne] at h
  simp only at h
  split at h
  · exact absurd h (by simp)
  · split at h
    · rename_i hcond
      cases h
      exact ⟨rfl, rfl, rfl, rfl, hcond, rfl⟩
    · exact absurd h (by simp)

theorem consecTag_fire_iff (n fs ts : Nat) :
    consecTag n fs ts = "🔥 土洋同步連買" ↔ (n ≤ fs ∧ n ≤ ts) := by
  rw [consecTag]
  by_cases hb : n ≤ fs ∧ n ≤ ts
  · simp [hb]
  · rw [if_neg hb]
    constructor
    · intro hEq
      by_cases hf : n ≤ fs
      · rw [if_pos hf] at hEq
        exact absurd hEq (by decide)
      · rw [if_neg hf] at hEq
        exact absurd hEq (by decide)
    · intro hc
      exact absurd hc hb

/-- C1: for every stock whose pivoted chip history has a foreign-investor
(resp. investment-trust) column, `scan_consecutive_buys` computes the
streak by the backwards sequential scan `consecStreakAccum`: the streak
count equals the length of the maximal suffix of strictly positive daily
net-buy values, and the accumulated total equals the sum of exactly that
suffix (the suffix is a genuine suffix, all its values are strictly
positive, and every all-positive suffix is no longer than it, so a zero
or negative day ends the streak and contributes nothing); the rows kept
by `scanOne` carry exactly these quantities for the present columns. -/
theorem c1_streak_is_max_positive_suffix (vals : List ℚ) :
    (consecStreakAccum vals).1 = (maxSuffix posB vals).length ∧
    (consecStreakAccum vals).2 = (maxSuffix posB vals).sum ∧
    (∃ t, t ++ maxSuffix posB vals = vals) ∧
    (∀ v ∈ maxSuffix posB vals, 0 < v) ∧
    (∀ s, (∃ t, t ++ s = vals) → (∀ v ∈ s, 0 < v) →
      s.length ≤ (maxSuffix posB vals).length) ∧
    (∀ n sid p c r, p.foreignCol = some c → scanOne n (sid, p) = some r →
      r.fStreak = (maxSuffix posB c).length ∧
      r.fAccum = truncQ (maxSuffix posB c).sum) ∧
    (∀ n sid p c r, p.trustCol = some c → scanOne n (sid, p) = some r →
      r.tStreak = (maxSuffix posB c).length ∧
      r.tAccum = truncQ (maxSuffix posB c).sum) := by
  have hchar : ∀ l : List ℚ, consecStreakAccum l
      = ((maxSuffix posB l).length, (maxSuffix posB l).sum) := by
    intro l
    rw [consecStreakAccum, streakScanPos_eq, maxSuffix]
    simp [List.sum_reverse]
  refine ⟨by rw [hchar], by rw [hchar], maxSuffix_is_a_suffix posB vals, ?_,
    ?_, ?_, ?_⟩
  · intro v hv
    have := maxSuffix_mem posB vals v hv
    simpa [posB] using this
  · intro s hs hall
    exact maxSuffix_maximal posB vals s hs
      (fun v hv => by simpa [posB] using hall v hv)
  · intro n sid p c r hc hr
    obtain ⟨h1, h2, _, _, _, _⟩ := scanOne_eq_some n sid p r hr
    have hfa : foreignStreakAccum p = consecStreakAccum c := by
      rw [foreignStreakAccum, hc]
    rw [h1, h2, hfa, hchar]
    exact ⟨rfl, rfl⟩
  · intro n sid p c r hc hr
    obtain ⟨_, _, h3, h4, _, _⟩ := scanOne_eq_some n sid p r hr
    have hta : trustStreakAccum p = consecStreakAccum c := by
      rw [trustStreakAccum, hc]
    rw [h3, h4, hta, hchar]
    exact ⟨rfl, rfl⟩

/-- Witness for C1 at a concrete input: net-buy history
`[-2, 5, 0, 3, 4]` has maximal positive suffix `[3, 4]`, streak `2`,
accumulated total `7`; a pivot with that foreign column and threshold `2`
yields a row with those fields. -/
theorem c1_streak_is_max_positive_suffix_witness :
    (consecStreakAccum [-2, 5, 0, 3, 4]).1 = 2 ∧
    (consecStreakAccum [-2, 5, 0, 3, 4]).2 = 7 ∧
    ([(3 : ℚ), 4].length ≤ (maxSuffix posB [-2, 5, 0, 3, 4]).length) ∧
    (∀ r, scanOne 2 ("2330",
        ⟨5, some [-2, 5, 0, 3, 4], none, [], []⟩) = some r →
      r.fStreak = (maxSuffix posB [-2, 5, 0, 3, 4]).length) := by
  obtain ⟨h1, h2, _, _, hmax, hf, _⟩ :=
    c1_streak_is_max_positive_suffix [-2, 5, 0, 3, 4]
  refine ⟨?_, ?_, ?_, ?_⟩
  · rw [h1]; norm_num [maxSuffix, posB]
  · rw [h2]; norm_num [maxSuffix, posB]
  · exact hmax [(3 : ℚ), 4] ⟨[-2, 5, 0], by norm_num⟩ (by norm_num)
  · intro r hr
    exact (hf 2 "2330" ⟨5, some [-2, 5, 0, 3, 4], none, [], []⟩
      [-2, 5, 0, 3, 4] r rfl hr).1

/-- C9: the signed streak helper `_streak` of `calc_chip_strength`, on the
NaN-dropped value sequence: if the last value is strictly positive the
result is `+k` with `k` the length of the maximal suffix of strictly
positive values; if strictly negative, `-k` for the maximal suffix of
strictly negative values; if the sequence is empty or ends in exactly
zero, the result is `0`. -/
theorem c9_signed_streak_characterisation (series : List (Option ℚ)) :
    ((series.filterMap id).getLast? = none → signedStreak series = 0) ∧
    (∀ x, (series.filterMap id).getLast? = some x →
      (0 < x → signedStreak series =
        ((maxSuffix posB (series.filterMap id)).length : ℤ)) ∧
      (x < 0 → signedStreak series =
        -((maxSuffix negB (series.filterMap id)).length : ℤ)) ∧
      (x = 0 → signedStreak series = 0)) := by
  constructor
  · intro h
    rw [signedStreak]
    simp only [h]
  · intro x hx
    have hfun1 : (fun v : ℚ => if (0 : ℤ) < 1 then posB v else negB v)
        = posB := by
      funext v; norm_num
    have hfun2 : (fun v : ℚ => if (0 : ℤ) < -1 then posB v else negB v)
        = negB := by
      funext v; norm_num
    refine ⟨?_, ?_, ?_⟩
    · intro hpos
      rw [signedStreak]
      simp only [hx, if_pos hpos]
      rw [hfun1, dirCount_eq, maxSuffix]
      simp
    · intro hneg
      have hnp : ¬ 0 < x := by linarith
      rw [signedStreak]
      simp only [hx, if_neg hnp]
      rw [hfun2, dirCount_eq, maxSuffix]
      simp
    · intro hzero
      subst hzero
      have hnp : ¬ (0 : ℚ) < 0 := lt_irrefl 0
      rw [signedStreak]
      simp only [hx, if_neg hnp]
      rw [hfun2]
      have hrev : ∃ t, (series.filterMap id).reverse = 0 :: t := by
        have hh : (series.filterMap id).reverse.head? = some 0 := by
          rw [List.head?_reverse]; exact hx
        cases hr : (series.filterMap id).reverse with
        | nil => rw [hr] at hh; exact absurd hh (by simp)
        | cons a t =>
          rw [hr] at hh
          simp only [List.head?_cons, Option.some.injEq] at hh
          exact ⟨t, by rw [hh]⟩
      obtain ⟨t, ht⟩ := hrev
      rw [ht, dirCount]
      simp [negB]

/-- Witness for C9 at concrete inputs: series `[5, NaN, -1, -2]` drops to
`[5, -1, -2]`, ends negative, streak `-2`; series `[3, 1]` ends positive,
streak `2`; series `[4, 0]` ends in zero, streak `0`. -/
theorem c9_signed_streak_witness :
    signedStreak [some 5, none, some (-1), some (-2)] = -2 ∧
    signedStreak [some 3, some 1] = 2 ∧
    signedStreak [some 4, some 0] = 0 := by
  refine ⟨?_, ?_, ?_⟩
  · have h := (c9_signed_streak_characterisation
      [some 5, none, some (-1), some (-2)]).2 (-2) (by decide)
    rw [h.2.1 (by norm_num)]
    decide
  · have h := (c9_signed_streak_characterisation [some 3, some 1]).2 1
      (by decide)
    rw [h.1 (by norm_num)]
    decide
  · have h := (c9_signed_streak_characterisation [some 4, some 0]).2 0
      (by decide)
    exact h.2.2 rfl

/-- C3: every row returned by `scan_consecutive_buys(N)` has a foreign
streak `≥ N` or a trust streak `≥ N`; the tag is `🔥 土洋同步連買`
exactly when both streaks are `≥ N`; and the rows are ordered by
non-increasing sum of foreign streak and trust streak. -/
theorem c3_scan_rows_filtered_tagged_sorted (n : Nat)
    (stocks : List (String × Pivot)) :
    (∀ r ∈ scanConsecutiveBuys n stocks,
      (n ≤ r.fStreak ∨ n ≤ r.tStreak) ∧
      (r.tag = "🔥 土洋同步連買" ↔ (n ≤ r.fStreak ∧ n ≤ r.tStreak))) ∧
    (scanConsecutiveBuys n stocks).Pairwise
      (fun a b => b.fStreak + b.tStreak ≤ a.fStreak + a.tStreak) := by
  constructor
  · intro r hr
    rw [scanConsecutiveBuys, mem_sortRowsDesc, List.mem_filterMap] at hr
    obtain ⟨⟨sid, p⟩, _, hone⟩ := hr
    obtain ⟨_, _, _, _, hcond, htag⟩ := scanOne_eq_some n sid p r hone
    exact ⟨hcond, htag ▸ consecTag_fire_iff n r.fStreak r.tStreak⟩
  · have h := pairwise_sortRowsDesc (stocks.filterMap (scanOne n))
    rw [scanConsecutiveBuys]
    exact h.imp (fun hab => hab)

/-- Witness for C3 at a concrete scan: two stocks with foreign columns
`[1, 2, 3]` (streak 3) and `[5, -1, 2, 2, 2]` (streak 3) and trust
columns `[1, 1, 1]` resp. `[-1, -1, 0, 0, -3]`, threshold 3: the first
stock satisfies both streaks and is tagged `🔥 土洋同步連買`. -/
theorem c3_scan_rows_filtered_tagged_sorted_witness :
    ∀ r ∈ scanConsecutiveBuys 3
      [("2330", ⟨3, some [1, 2, 3], some [1, 1, 1], [], []⟩),
       ("2317", ⟨5, some [5, -1, 2, 2, 2], some [-1, -1, 0, 0, -3], [], []⟩)],
      (3 ≤ r.fStreak ∨ 3 ≤ r.tStreak) ∧
      (r.tag = "🔥 土洋同步連買" ↔ (3 ≤ r.fStreak ∧ 3 ≤ r.tStreak)) := by
  intro r hr
  exact (c3_scan_rows_filtered_tagged_sorted 3
    [("2330", ⟨3, some [1, 2, 3], some [1, 1, 1], [], []⟩),
     ("2317", ⟨5, some [5, -1, 2, 2, 2], some [-1, -1, 0, 0, -3], [], []⟩)]).1
    r hr

/- ── helper lemmas for the concentration score ────────────────────────── -/

theorem dailyTotalsAbs_ne_nil (p : Pivot) (n : Nat) (hn : 1 ≤ n)
    (hd : 1 ≤ p.ndays) : dailyTotalsAbs p n ≠ [] := by
  have hlen : (dailyTotalsAbs p n).length = p.ndays - (p.ndays - n) := by
    simp [dailyTotalsAbs]
  intro hnil
  rw [hnil] at hlen
  simp at hlen
  omega

theorem dailyTotalsAbs_mean_nonneg (p : Pivot) (n : Nat) :
    0 ≤ (dailyTotalsAbs p n).sum / ((dailyTotalsAbs p n).length : ℚ) := by
  apply div_nonneg
  · apply List.sum_nonneg
    intro x hx
    rw [dailyTotalsAbs, List.mem_map] at hx
    obtain ⟨i, _, rfl⟩ := hx
    exact abs_nonneg _
  · exact Nat.cast_nonneg _

/-- C2: for every lookback window of at least one day (the code itself
already skips histories with fewer than three rows), the concentration
score of `scan_chip_concentration` equals the institutional net-buy total
of the window divided by the mean of the absolute per-day row totals of
the same window — the denominator replaced by `1` when that mean is
zero — multiplied by `100`; in particular, when the mean is zero the
score is the raw total times `100`. -/
theorem c2_concentration_formula (p : Pivot) (n : Nat) (hn : 1 ≤ n)
    (hd : 3 ≤ p.ndays) :
    concentration p n = concentrationSpec p n ∧
    ((dailyTotalsAbs p n).sum / ((dailyTotalsAbs p n).length : ℚ) = 0 →
      concentration p n
        = (foreignSum p n + trustSum p n + dealerSum p n) * 100) := by
  have hne : ¬ (dailyTotalsAbs p n).isEmpty := by
    rw [List.isEmpty_iff]
    exact dailyTotalsAbs_ne_nil p n hn (by omega)
  have hmean : meanQ (dailyTotalsAbs p n)
      = some ((dailyTotalsAbs p n).sum / ((dailyTotalsAbs p n).length : ℚ)) := by
    rw [meanQ, if_neg hne]
  have hnn := dailyTotalsAbs_mean_nonneg p n
  by_cases hm : (dailyTotalsAbs p n).sum / ((dailyTotalsAbs p n).length : ℚ) = 0
  · have havg : avgDaily p n = some 1 := by
      rw [avgDaily, hmean]
      simp [hm]
    constructor
    · rw [concentration, havg, concentrationSpec]
      simp [hm]
    · intro _
      rw [concentration, havg]
      norm_num
  · have havg : avgDaily p n
        = some ((dailyTotalsAbs p n).sum / ((dailyTotalsAbs p n).length : ℚ)) := by
      rw [avgDaily, hmean]
      simp [hm]
    have hpos : 0 < (dailyTotalsAbs p n).sum / ((dailyTotalsAbs p n).length : ℚ) :=
      lt_of_le_of_ne hnn (Ne.symm hm)
    constructor
    · rw [concentration, havg, concentrationSpec]
      simp [hm, hpos]
    · intro h0
      exact absurd h0 hm

/-- Witness for C2 at a concrete pivot: foreign column `[1, 2, 3]`,
no other columns, three rows, lookback `2`: the window sum is `5`,
the mean of absolute row totals is `5/2`, the score is `200`. -/
theorem c2_concentration_formula_witness :
    concentration ⟨3, some [1, 2, 3], none, [], []⟩ 2
      = concentrationSpec ⟨3, some [1, 2, 3], none, [], []⟩ 2 ∧
    concentration ⟨3, some [1, 2, 3], none, [], []⟩ 2 = 200 := by
  constructor
  · exact (c2_concentration_formula ⟨3, some [1, 2, 3], none, [], []⟩ 2
      (by decide) (by decide)).1
  · norm_num [concentration, avgDaily, meanQ, dailyTotalsAbs, rowTotal,
      Pivot.allCols, foreignSum, trustSum, dealerSum, tailCol,
      List.range_succ]

/-- C10 counterexample: the claim asserts `avg_daily > 0` on every path
of `scan_chip_concentration` and that the fallback branch
`concentration = 0` (taken when `avg_daily > 0` fails) is unreachable.
With `lookback_days = 0` — a legal argument of the public function — the
window `pivot.tail(0)` is empty even for a three-row history that passes
the `len(pivot) < 3` guard, `daily_totals.mean()` is NaN, `NaN != 0`
holds so `avg_daily` stays NaN, `NaN > 0` is false, and the fallback
branch is taken. -/
theorem c10_counterexample :
    concFallbackTaken ⟨3, some [1, 2, 3], none, [], []⟩ 0 = true ∧
    3 ≤ (⟨3, some [1, 2, 3], none, [], []⟩ : Pivot).ndays := by
  constructor
  · rfl
  · decide

/-- C10 amended: for every lookback window of at least one day (which
includes every call site, all of which use 5, 10 or 20 days), the
denominator `avg_daily` is strictly positive — the mean of absolute
values is non-negative and is replaced by `1` exactly when it is zero —
so the division never divides by zero and the fallback branch assigning
`concentration = 0` is not taken; only the degenerate `lookback_days = 0`
window reaches the fallback, through a NaN mean. -/
theorem c10_fallback_unreachable_amended (p : Pivot) (n : Nat) (hn : 1 ≤ n)
    (hd : 3 ≤ p.ndays) :
    (∃ a, avgDaily p n = some a ∧ 0 < a ∧
      concentration p n
        = ((foreignSum p n + trustSum p n + dealerSum p n) / a) * 100) ∧
    concFallbackTaken p n = false := by
  have hne : ¬ (dailyTotalsAbs p n).isEmpty := by
    rw [List.isEmpty_iff]
    exact dailyTotalsAbs_ne_nil p n hn (by omega)
  have hmean : meanQ (dailyTotalsAbs p n)
      = some ((dailyTotalsAbs p n).sum / ((dailyTotalsAbs p n).length : ℚ)) := by
    rw [meanQ, if_neg hne]
  have hnn := dailyTotalsAbs_mean_nonneg p n
  by_cases hm : (dailyTotalsAbs p n).sum / ((dailyTotalsAbs p n).length : ℚ) = 0
  · have havg : avgDaily p n = some 1 := by
      rw [avgDaily, hmean]
      simp [hm]
    refine ⟨⟨1, havg, by norm_num, ?_⟩, ?_⟩
    · rw [concentration, havg]
      norm_num
    · rw [concFallbackTaken, havg]
      norm_num
  · have havg : avgDaily p n
        = some ((dailyTotalsAbs p n).sum / ((dailyTotalsAbs p n).length : ℚ)) := by
      rw [avgDaily, hmean]
      simp [hm]
    have hpos : 0 < (dailyTotalsAbs p n).sum / ((dailyTotalsAbs p n).length : ℚ) :=
      lt_of_le_of_ne hnn (Ne.symm hm)
    refine ⟨⟨_, havg, hpos, ?_⟩, ?_⟩
    · rw [concentration, havg]
      simp [hpos]
    · rw [concFallbackTaken, havg]
      simp [hpos]

/-- Witness for the amended C10 at the concrete pivot of the C2 witness:
lookback `2` on a three-row history gives a positive denominator and no
fallback. -/
theorem c10_fallback_unreachable_amended_witness :
    concFallbackTaken ⟨3, some [1, 2, 3], none, [], []⟩ 2 = false :=
  (c10_fallback_unreachable_amended ⟨3, some [1, 2, 3], none, [], []⟩ 2
    (by decide) (by decide)).2

/- ── price data and rolling moving averages ───────────────────────────── -/

/-- One row of a downloaded price table before moving averages are added
(`yf.download` result): the `Close` value and, bundled opaquely, every
other column of the row (`Open`, `High`, `Low`, `Volume`, ...). -/
structure PriceRow (α : Type) where
  close : ℚ
  other : α
deriving DecidableEq

/-- One row after `get_price_data` / `fetch_price_data` added the
moving-average columns. -/
structure PriceRowMA (α : Type) where
  close : ℚ
  other : α
  ma5 : Option ℚ
  ma10 : Option ℚ
  ma20 : Option ℚ
deriving DecidableEq

/-- pandas `Series.rolling(window=w).mean()` at position `i` (default
`min_periods = w`): the mean of entries `i+1-w .. i` when at least `w`
entries are available, `NaN` (`none`) otherwise. -/
def rollingMeanAt (w : Nat) (closes : List ℚ) (i : Nat) : Option ℚ :=
  if w ≤ i + 1 then some (((closes.drop (i + 1 - w)).take w).sum / (w : ℚ))
  else none

/-- Row-wise worker of `addMAs`, carrying the running row index. -/
def addMAsAux (closes : List ℚ) : Nat → List (PriceRow α) → List (PriceRowMA α)
  | _, [] => []
  | i, r :: rs =>
    ⟨r.close, r.other, rollingMeanAt 5 closes i, rollingMeanAt 10 closes i,
      rollingMeanAt 20 closes i⟩ :: addMAsAux closes (i + 1) rs

/-- The moving-average augmentation of `DataEngine.get_price_data`
(`src/utils/data_engine.py` lines 26-29) and of `fetch_price_data`
(`src/generate_monthly_report.py` lines 128-130), which add columns
`MA5`, `MA10`, `MA20` as `df['Close'].rolling(window=w).mean()` for
`w = 5, 10, 20` and leave every other column unchanged. -/
def addMAs (rows : List (PriceRow α)) : List (PriceRowMA α) :=
  addMAsAux (rows.map (fun r => r.close)) 0 rows

theorem addMAsAux_getElem (closes : List ℚ) (rows : List (PriceRow α))
    (i j : Nat) :
    (addMAsAux closes i rows)[j]? = (rows[j]?).map
      (fun r => ⟨r.close, r.other, rollingMeanAt 5 closes (i + j),
        rollingMeanAt 10 closes (i + j), rollingMeanAt 20 closes (i + j)⟩) := by
  induction rows generalizing i j with
  | nil => simp [addMAsAux]
  | cons r rs ih =>
    cases j with
    | zero => simp [addMAsAux]
    | succ j' =>
      rw [addMAsAux]
      simp only [List.getElem?_cons_succ]
      rw [ih (i + 1) j']
      have : i + 1 + j' = i + (j' + 1) := by omega
      rw [this]

theorem addMAs_getElem (rows : List (PriceRow α)) (j : Nat) :
    (addMAs rows)[j]? = (rows[j]?).map
      (fun r => ⟨r.close, r.other,
        rollingMeanAt 5 (rows.map (fun s => s.close)) j,
        rollingMeanAt 10 (rows.map (fun s => s.close)) j,
        rollingMeanAt 20 (rows.map (fun s => s.close)) j⟩) := by
  have := addMAsAux_getElem (rows.map (fun s => s.close)) rows 0 j
  simpa [addMAs] using this

/-- Concrete five-row price table used by the C4 counterexample. -/
def exFiveRows : List (PriceRow Unit) :=
  [⟨1, ()⟩, ⟨2, ()⟩, ⟨3, ()⟩, ⟨4, ()⟩, ⟨5, ()⟩]

/-- C4 counterexample: the claim says `MA5` is undefined (NaN) for rows
with fewer than 5 predecessors.  On a five-row close history
`[1, 2, 3, 4, 5]` the last row (index 4) has only 4 predecessors, yet
`rolling(5).mean()` is defined there and equals `3`: pandas needs `w`
rows *including* the row itself, not `w` predecessors. -/
theorem c4_counterexample :
    ¬ (∀ i, i < 5 → ∀ r : PriceRowMA Unit,
        (addMAs exFiveRows)[i]? = some r → r.ma5 = none) := by
  intro h
  have h4 := h 4 (by omega) ⟨5, (), some 3, none, none⟩ ?_
  · exact absurd h4 (by simp)
  · rw [addMAs_getElem]
    norm_num [exFiveRows, rollingMeanAt]

/-- C4 amended: `get_price_data` (and `fetch_price_data`) augment a price
table with columns `MA5`, `MA10`, `MA20` equal to the rolling arithmetic
mean of the `Close` column over windows of 5, 10, 20 rows: at row `i`
the value is the mean of the `w` closes ending at the row when `i+1 ≥ w`,
and undefined (NaN) when fewer than `w` rows are available up to and
including the row (that is, for rows with fewer than `w - 1`
predecessors); the row count and every other column are unchanged. -/
theorem c4_rolling_ma_amended (rows : List (PriceRow α)) :
    ((addMAs rows).map (fun r => r.other) = rows.map (fun r => r.other)) ∧
    ((addMAs rows).map (fun r => r.close) = rows.map (fun r => r.close)) ∧
    (addMAs rows).length = rows.length ∧
    (∀ i r, (addMAs rows)[i]? = some r →
      (5 ≤ i + 1 →
        r.ma5 = some ((((rows.map (fun s => s.close)).drop (i + 1 - 5)).take
          5).sum / 5)) ∧
      (i + 1 < 5 → r.ma5 = none) ∧
      (10 ≤ i + 1 →
        r.ma10 = some ((((rows.map (fun s => s.close)).drop (i + 1 - 10)).take
          10).sum / 10)) ∧
      (i + 1 < 10 → r.ma10 = none) ∧
      (20 ≤ i + 1 →
        r.ma20 = some ((((rows.map (fun s => s.close)).drop (i + 1 - 20)).take
          20).sum / 20)) ∧
      (i + 1 < 20 → r.ma20 = none)) := by
  have hget := addMAs_getElem rows
  refine ⟨?_, ?_, ?_, ?_⟩
  · apply List.ext_getElem?
    intro j
    rw [List.getElem?_map, hget j, List.getElem?_map]
    cases rows[j]? <;> rfl
  · apply List.ext_getElem?
    intro j
    rw [List.getElem?_map, hget j, List.getElem?_map]
    cases rows[j]? <;> rfl
  · have := congrArg List.length
      (show (addMAs rows).map (fun r => r.other) = rows.map (fun r => r.other)
        from by
          apply List.ext_getElem?
          intro j
          rw [List.getElem?_map, hget j, List.getElem?_map]
          cases rows[j]? <;> rfl)
    simpa using this
  · intro i r hr
    rw [hget i] at hr
    cases hrow : rows[i]? with
    | none => rw [hrow] at hr; exact absurd hr (by simp)
    | some row =>
      rw [hrow] at hr
      simp only [Option.map, Option.some.injEq] at hr
      subst hr
      refine ⟨?_, ?_, ?_, ?_, ?_, ?_⟩ <;> intro hi
      · show rollingMeanAt 5 (List.map (fun s => s.close) rows) i = _
        rw [rollingMeanAt, if_pos hi]; norm_num
      · show rollingMeanAt 5 (List.map (fun s => s.close) rows) i = none
        rw [rollingMeanAt, if_neg (by omega)]
      · show rollingMeanAt 10 (List.map (fun s => s.close) rows) i = _
        rw [rollingMeanAt, if_pos hi]; norm_num
      · show rollingMeanAt 10 (List.map (fun s => s.close) rows) i = none
        rw [rollingMeanAt, if_neg (by omega)]
      · show rollingMeanAt 20 (List.map (fun s => s.close) rows) i = _
        rw [rollingMeanAt, if_pos hi]; norm_num
      · show rollingMeanAt 20 (List.map (fun s => s.close) rows) i = none
        rw [rollingMeanAt, if_neg (by omega)]

/-- Witness for the amended C4 at the concrete five-row table: closes are
unchanged, row 4 (the first full five-row window) gets `MA5 = 3`, and its
`MA10` is undefined. -/
theorem c4_rolling_ma_amended_witness :
    (addMAs exFiveRows).map (fun r => r.close)
      = exFiveRows.map (fun r => r.close) ∧
    ∃ r : PriceRowMA Unit, (addMAs exFiveRows)[4]? = some r ∧
      r.ma5 = some 3 ∧ r.ma10 = none := by
  have h := c4_rolling_ma_amended exFiveRows
  constructor
  · exact h.2.1
  · have hsome : (addMAs exFiveRows)[4]?
        = some ⟨5, (), some 3, none, none⟩ := by
      rw [addMAs_getElem]
      norm_num [exFiveRows, rollingMeanAt]
    refine ⟨_, hsome, ?_, ?_⟩
    · have h5 := (h.2.2.2 4 _ hsome).1 (by omega)
      rw [h5]
      norm_num [exFiveRows]
    · exact (h.2.2.2 4 _ hsome).2.2.2.1 (by omega)

/- ── inventory parsing (load_inventory) ───────────────────────────────── -/

/-- The five capture groups of one candidate table row of `inventory.md`,
in the order of the regex
`\|\s*([^\|]+?)\s*\((\d{4,6}[A-Z]?)\)\s*\|\s*([\d,]+)\s*\|\s*([\d,.]+)\s*\|\s*(.*?)\s*\|`
of `DataEngine.load_inventory` (`src/utils/data_engine.py` lines 68-71)
and `load_inventory_for_report`
(`src/generate_monthly_report.py` lines 93-96). -/
structure RawRow where
  name : String
  code : String
  shares : String
  price : String
  note : String
deriving DecidableEq

/-- The code sub-pattern `\d{4,6}[A-Z]?`: 4 to 6 ASCII digits optionally
followed by one uppercase letter. -/
def codeOK (s : String) : Bool :=
  let cs := s.toList
  (decide (4 ≤ cs.length) && decide (cs.length ≤ 6)
    && cs.all (fun c => c.isDigit))
  || (decide (4 ≤ cs.dropLast.length) && decide (cs.dropLast.length ≤ 6)
    && cs.dropLast.all (fun c => c.isDigit)
    && (match cs.getLast? with
        | some c => c.isUpper
        | none => false))

/-- The shares sub-pattern `[\d,]+`: non-empty, digits and commas only. -/
def sharesOK (s : String) : Bool :=
  !s.toList.isEmpty && s.toList.all (fun c => c.isDigit || c = ',')

/-- The price sub-pattern `[\d,.]+`: non-empty, digits, commas and dots. -/
def priceOK (s : String) : Bool :=
  !s.toList.isEmpty
    && s.toList.all (fun c => c.isDigit || c = ',' || c = '.')

/-- The name sub-pattern `[^\|]+?` (between `\|\s*` and `\s*\(`):
non-empty and free of the `|` character. -/
def nameOK (s : String) : Bool :=
  !s.toList.isEmpty && s.toList.all (fun c => c ≠ '|')

/-- The note sub-pattern `(.*?)` (lazy, before `\s*\|`): free of `|`
(a pipe ends the lazy group) and of line breaks (`.` excludes them). -/
def noteOK (s : String) : Bool :=
  s.toList.all (fun c => c ≠ '|' && c ≠ '\n')

/-- Whether a candidate row is matched by the inventory regex: each
capture group conforms to its sub-pattern. -/
def rowMatches (r : RawRow) : Bool :=
  nameOK r.name && codeOK r.code && sharesOK r.shares && priceOK r.price
    && noteOK r.note

/-- Decimal value of a list of ASCII digit characters. -/
def digitsToNat (cs : List Char) : Nat :=
  cs.foldl (fun acc c => acc * 10 + (c.toNat - '0'.toNat)) 0

/-- Python `int(s.replace(',', ''))`: strip commas, then parse a
non-empty all-digit string; anything else raises `ValueError` (`none`). -/
def parseIntPy (s : String) : Option Nat :=
  let cs := s.toList.filter (fun c => c ≠ ',')
  if !cs.isEmpty && cs.all (fun c => c.isDigit) then some (digitsToNat cs)
  else none

/-- Python `float(s.replace(',', ''))` on strings drawn from the price
character class: strip commas; accept `digits`, `digits.digits`,
`digits.` and `.digits` (at least one digit, at most one dot); anything
else — for example `1.2.3` or a string of commas — raises `ValueError`
(`none`). -/
def parseFloatPy (s : String) : Option ℚ :=
  let cs := s.toList.filter (fun c => c ≠ ',')
  if cs.all (fun c => c.isDigit || c = '.') then
    let intPart := cs.takeWhile (fun c => c ≠ '.')
    let rest := cs.dropWhile (fun c => c ≠ '.')
    match rest with
    | [] => if intPart.isEmpty then none else some (digitsToNat intPart)
    | _ :: fracPart =>
      if fracPart.all (fun c => c.isDigit)
          && !(intPart.isEmpty && fracPart.isEmpty) then
        some ((digitsToNat intPart : ℚ)
          + (digitsToNat fracPart : ℚ) / ((10 : ℚ) ^ fracPart.length))
      else none
  else none

/-- One parsed holding (`src/utils/data_engine.py` lines 75-82).
`load_inventory_for_report` additionally derives a `category` from the
code via a lookup table; no claim concerns it and it is omitted. -/
structure Holding where
  name : String
  code : String
  symbol : String
  shares : Nat
  avg_price : ℚ
  note : String
deriving DecidableEq

/-- The body of the per-match loop (`src/utils/data_engine.py`
lines 74-82): build the holding, with `symbol = code + ".TW"`, integer
shares and float average price; a `ValueError` from either numeric
conversion is `none`.  (The Python `strip()` calls are identities on
regex captures, whose surrounding whitespace the `\s*` parts already
consumed.) -/
def parseRow (r : RawRow) : Option Holding :=
  match parseIntPy r.shares, parseFloatPy r.price with
  | some sh, some pr =>
    some ⟨r.name, r.code, r.code ++ ".TW", sh, pr, r.note⟩
  | _, _ => none

/-- The `for name, code, shares, price, note in rows:` loop of
`load_inventory` (`src/utils/data_engine.py` lines 73-82): parse the
matched rows in order, appending each holding; the first `ValueError`
aborts the whole loop (`none`). -/
def parseRows : List RawRow → Option (List Holding)
  | [] => some []
  | r :: rs =>
    match parseRow r, parseRows rs with
    | some h, some hs => some (h :: hs)
    | _, _ => none

/-- `DataEngine.load_inventory` (`src/utils/data_engine.py` lines 56-86)
over the file-existence flag and the candidate rows of the file: a
missing file yields `[]`; otherwise the regex keeps the matching rows and
each is parsed in order; any exception — including a `ValueError` from
`int()` / `float()` — is caught and yields `[]`. -/
def loadInventory (fileExists : Bool) (rows : List RawRow) : List Holding :=
  if fileExists then
    match parseRows (rows.filter rowMatches) with
    | some hs => hs
    | none => []
  else []

/-- `load_inventory_for_report` (`src/generate_monthly_report.py`
lines 83-109): same matching and parsing, but with no `try/except`, so a
`ValueError` from a numeric conversion propagates. -/
def loadInventoryForReport (fileExists : Bool) (rows : List RawRow) :
    Except String (List Holding) :=
  if fileExists then
    match parseRows (rows.filter rowMatches) with
    | some hs => Except.ok hs
    | none => Except.error "ValueError"
  else Except.ok []

theorem parseRows_of_all_isSome (l : List RawRow)
    (h : ∀ r ∈ l, (parseRow r).isSome) : ∃ ys, parseRows l = some ys := by
  induction l with
  | nil => exact ⟨[], rfl⟩
  | cons r rs ih =>
    obtain ⟨ys, hys⟩ := ih (fun x hx => h x (by simp [hx]))
    obtain ⟨v, hv⟩ := Option.isSome_iff_exists.mp (h r (by simp))
    exact ⟨v :: ys, by rw [parseRows, hv, hys]⟩

theorem parseRows_spec (l : List RawRow) (ys : List Holding)
    (h : parseRows l = some ys) :
    ys.length = l.length ∧ ∀ i : Nat, ys[i]? = (l[i]?).bind parseRow := by
  induction l generalizing ys with
  | nil =>
    rw [parseRows] at h
    cases h
    exact ⟨rfl, fun i => by simp⟩
  | cons r rs ih =>
    rw [parseRows] at h
    cases hr : parseRow r with
    | none => rw [hr] at h; exact absurd h (by simp)
    | some v =>
      rw [hr] at h
      cases hrs : parseRows rs with
      | none => rw [hrs] at h; exact absurd h (by simp)
      | some zs =>
        rw [hrs] at h
        simp only [Option.some.injEq] at h
        subst h
        obtain ⟨hl, hi⟩ := ih zs hrs
        refine ⟨by simp [hl], fun i => ?_⟩
        cases i with
        | zero => simp [hr]
        | succ i' => simpa using hi i'

theorem parseRow_fields (r : RawRow) (h : Holding)
    (hp : parseRow r = some h) :
    h.symbol = r.code ++ ".TW" ∧ some h.shares = parseIntPy r.shares ∧
    some h.avg_price = parseFloatPy r.price ∧ h.name = r.name ∧
    h.code = r.code ∧ h.note = r.note := by
  rw [parseRow] at hp
  cases hs : parseIntPy r.shares with
  | none => rw [hs] at hp; exact absurd hp (by simp)
  | some sh =>
    rw [hs] at hp
    cases hfp : parseFloatPy r.price with
    | none => rw [hfp] at hp; exact absurd hp (by simp)
    | some pr =>
      rw [hfp] at hp
      simp only [Option.some.injEq] at hp
      subst hp
      exact ⟨rfl, rfl, rfl, rfl, rfl, rfl⟩

/-- The row used by the C5 counterexample: its price field `1.2.3` is
matched by the character class `[\d,.]+` of the regex but is rejected by
Python `float()`. -/
def badPriceRow : RawRow := ⟨"測試", "1234", "100", "1.2.3", "x"⟩

/-- C5 counterexample: the claim says the loaders return exactly one
holding per table row matching the regex.  The row
`| 測試 (1234) | 100 | 1.2.3 | x |` matches the regex — `1.2.3` lies in
the class `[\d,.]+` — yet `float("1.2.3")` raises `ValueError`, so
`load_inventory` catches it and returns zero holdings, while
`load_inventory_for_report`, which has no `try/except` around the loop,
propagates the error instead of returning a holding list at all. -/
theorem c5_counterexample :
    rowMatches badPriceRow = true ∧
    parseFloatPy badPriceRow.price = none ∧
    loadInventory true [badPriceRow] = [] ∧
    (loadInventory true [badPriceRow]).length
      ≠ ([badPriceRow].filter rowMatches).length ∧
    loadInventoryForReport true [badPriceRow]
      = Except.error "ValueError" := by
  refine ⟨by decide, by decide, by decide, by decide, by rfl⟩

/-- C5 amended: `load_inventory` (and `load_inventory_for_report`)
returns exactly one holding per candidate row matching the regex —
symbol = code + ".TW", shares = the digits with commas removed as an
integer, avg_price = the number with commas removed as a float — and
ignores non-matching rows, *provided every matched row's shares and
price fields survive Python's `int()` / `float()` conversions*; the
regex classes `[\d,]+` / `[\d,.]+` also admit strings (for example
`1.2.3` or `,,`) on which the conversion raises `ValueError`, in which
case `load_inventory` returns `[]` (exception caught) and
`load_inventory_for_report` propagates the error.  A missing file yields
the empty list in both. -/
theorem c5_inventory_amended (fe : Bool) (rows : List RawRow)
    (hok : ∀ r ∈ rows.filter rowMatches, (parseRow r).isSome) :
    (fe = false → loadInventory fe rows = [] ∧
      loadInventoryForReport fe rows = Except.ok []) ∧
    (fe = true →
      (loadInventory fe rows).length = (rows.filter rowMatches).length ∧
      (∀ i : Nat, (loadInventory fe rows)[i]?
        = ((rows.filter rowMatches)[i]?).bind parseRow) ∧
      loadInventoryForReport fe rows = Except.ok (loadInventory fe rows)) ∧
    (∀ r h, parseRow r = some h →
      h.symbol = r.code ++ ".TW" ∧ some h.shares = parseIntPy r.shares ∧
      some h.avg_price = parseFloatPy r.price ∧ h.name = r.name ∧
      h.note = r.note) := by
  refine ⟨?_, ?_, ?_⟩
  · intro hfe
    subst hfe
    exact ⟨rfl, rfl⟩
  · intro hfe
    subst hfe
    obtain ⟨ys, hys⟩ := parseRows_of_all_isSome _ hok
    obtain ⟨hl, hi⟩ := parseRows_spec _ ys hys
    have hload : loadInventory true rows = ys := by
      rw [loadInventory, if_pos rfl, hys]
    refine ⟨by rw [hload]; exact hl, fun i => by rw [hload]; exact hi i, ?_⟩
    rw [loadInventoryForReport, if_pos rfl, hys, hload]
  · intro r h hp
    obtain ⟨h1, h2, h3, h4, _, h6⟩ := parseRow_fields r h hp
    exact ⟨h1, h2, h3, h4, h6⟩

/-- Witness for the amended C5 at a concrete two-row file in which only
the first row matches the regex: exactly one holding results, with
symbol `2330.TW`, 1500 shares (from `1,500`) and price `585.5`. -/
theorem c5_inventory_amended_witness :
    loadInventory true
      [⟨"台積電", "2330", "1,500", "585.5", "長期持有"⟩,
       ⟨"不合格", "12", "100", "10", ""⟩]
      = [⟨"台積電", "2330", "2330.TW", 1500, 585.5, "長期持有"⟩] := by
  have h := c5_inventory_amended true
    [⟨"台積電", "2330", "1,500", "585.5", "長期持有"⟩,
     ⟨"不合格", "12", "100", "10", ""⟩]
    (by decide)
  obtain ⟨hlen, hi, _⟩ := h.2.1 rfl
  have h0 := hi 0
  have hfilter : ([⟨"台積電", "2330", "1,500", "585.5", "長期持有"⟩,
      (⟨"不合格", "12", "100", "10", ""⟩ : RawRow)].filter rowMatches)
      = [⟨"台積電", "2330", "1,500", "585.5", "長期持有"⟩] := by decide
  rw [hfilter] at hlen h0
  have hint : parseIntPy "1,500" = some 1500 := by decide
  have hfrac : parseFloatPy "585.5"
      = some ((digitsToNat ['5', '8', '5'] : ℚ)
        + (digitsToNat ['5'] : ℚ) / (10 : ℚ) ^ (['5'] : List Char).length) :=
    rfl
  have hd1 : digitsToNat ['5', '8', '5'] = 585 := by decide
  have hd2 : digitsToNat ['5'] = 5 := by decide
  have hfloat : parseFloatPy "585.5" = some 585.5 := by
    rw [hfrac, hd1, hd2]
    norm_num
  have hparse : parseRow ⟨"台積電", "2330", "1,500", "585.5", "長期持有"⟩
      = some ⟨"台積電", "2330", "2330.TW", 1500, 585.5, "長期持有"⟩ := by
    rw [parseRow, hint, hfloat]
    rfl
  have hone : (loadInventory true
      [⟨"台積電", "2330", "1,500", "585.5", "長期持有"⟩,
       ⟨"不合格", "12", "100", "10", ""⟩]).length = 1 := by
    rw [hlen]; decide
  have hval : (loadInventory true
      [⟨"台積電", "2330", "1,500", "585.5", "長期持有"⟩,
       ⟨"不合格", "12", "100", "10", ""⟩])[0]?
      = some ⟨"台積電", "2330", "2330.TW", 1500, 585.5, "長期持有"⟩ := by
    rw [h0]
    exact hparse
  cases hload : loadInventory true
      [⟨"台積電", "2330", "1,500", "585.5", "長期持有"⟩,
       ⟨"不合格", "12", "100", "10", ""⟩] with
  | nil => rw [hload] at hone; exact absurd hone (by decide)
  | cons a as =>
    rw [hload] at hone hval
    have has : as = [] := by
      have hz : as.length = 0 := by simpa using hone
      exact List.length_eq_zero.mp hz
    subst has
    simp only [List.getElem?_cons_zero, Option.some.injEq] at hval
    rw [hval]

/- ── chip summary with retry (fetch_chip_summary) ─────────────────────── -/

/-- Outcome of one call to
`dl.taiwan_stock_institutional_investors` inside the retry loop of
`fetch_chip_summary` (`src/generate_monthly_report.py` lines 199-209):
the call raises (caught by the inner `except`), returns an empty frame,
or returns non-empty data of some payload type `δ`. -/
inductive ApiOutcome (δ : Type) where
  | err
  | emptyFrame
  | ok (d : δ)

/-- Whether an outcome is a non-empty response (the
`raw is not None and not raw.empty` break test). -/
def ApiOutcome.hasData : ApiOutcome δ → Bool
  | .ok _ => true
  | _ => false

/-- The summary dict returned by `fetch_chip_summary`
(`src/generate_monthly_report.py` lines 243-248). -/
structure ChipSummary where
  foreign_net : ℤ
  trust_net : ℤ
  total_net : ℤ
  days : Nat
deriving DecidableEq

/-- The default returned on total failure or any error
(`empty_res`, `src/generate_monthly_report.py` line 194). -/
def emptyRes : ChipSummary := ⟨0, 0, 0, 0⟩

/-- The retry loop `for i in range(1, 6)` of `fetch_chip_summary`
(`src/generate_monthly_report.py` lines 199-209), over the list of
attempt indices: a non-empty response breaks out immediately (no sleep);
an exception or an empty frame falls through to `time.sleep(i * 2)` and
the next attempt.  Returns the non-empty payload, if any, and the list of
sleep durations performed. -/
def retryGo (outcomes : Nat → ApiOutcome δ) : List Nat → Option δ × List Nat
  | [] => (none, [])
  | i :: rest =>
    match outcomes i with
    | .ok d => (some d, [])
    | _ =>
      ((retryGo outcomes rest).1, i * 2 :: (retryGo outcomes rest).2)

/-- The attempt indices `range(1, 6)`. -/
def attemptIdxs : List Nat := [1, 2, 3, 4, 5]

/-- `fetch_chip_summary` (`src/generate_monthly_report.py`
lines 186-255) with its environment abstracted: `outcomes i` is what the
API does on attempt `i`, and `parse` is the cleaning / pivoting /
summing stage of lines 216-248 guarded by its own `try/except`
(`none` models an exception inside that block, caught at lines 249-251).
The surrounding outer `try/except` (lines 196 and 253-255) catches
everything else, so the function is total and always returns a summary:
the parsed one on success, `empty_res` otherwise. -/
def fetchChipSummary (outcomes : Nat → ApiOutcome δ)
    (parse : δ → Option ChipSummary) : ChipSummary × List Nat :=
  match retryGo outcomes attemptIdxs with
  | (none, sl) => (emptyRes, sl)
  | (some d, sl) =>
    match parse d with
    | some s => (s, sl)
    | none => (emptyRes, sl)

theorem retryGo_all_fail (outcomes : Nat → ApiOutcome δ) (l : List Nat)
    (h : ∀ j ∈ l, (outcomes j).hasData = false) :
    retryGo outcomes l = (none, l.map (fun i => i * 2)) := by
  induction l with
  | nil => rfl
  | cons i rest ih =>
    have hi := h i (by simp)
    rw [retryGo]
    cases ho : outcomes i with
    | ok d => rw [ho] at hi; exact absurd hi (by simp [ApiOutcome.hasData])
    | err =>
      show ((retryGo outcomes rest).1, i * 2 :: (retryGo outcomes rest).2) = _
      rw [ih (fun j hj => h j (by simp [hj]))]
      simp
    | emptyFrame =>
      show ((retryGo outcomes rest).1, i * 2 :: (retryGo outcomes rest).2) = _
      rw [ih (fun j hj => h j (by simp [hj]))]
      simp

theorem retryGo_split (outcomes : Nat → ApiOutcome δ) (l₁ l₂ : List Nat)
    (k : Nat) (d : δ)
    (h₁ : ∀ j ∈ l₁, (outcomes j).hasData = false)
    (hk : outcomes k = .ok d) :
    retryGo outcomes (l₁ ++ k :: l₂)
      = (some d, l₁.map (fun i => i * 2)) := by
  induction l₁ with
  | nil =>
    simp only [List.nil_append, List.map_nil]
    rw [retryGo, hk]
  | cons i rest ih =>
    have hi := h₁ i (by simp)
    rw [List.cons_append, retryGo]
    cases ho : outcomes i with
    | ok e => rw [ho] at hi; exact absurd hi (by simp [ApiOutcome.hasData])
    | err =>
      show ((retryGo outcomes (rest ++ k :: l₂)).1,
        i * 2 :: (retryGo outcomes (rest ++ k :: l₂)).2) = _
      rw [ih (fun j hj => h₁ j (by simp [hj]))]
      simp
    | emptyFrame =>
      show ((retryGo outcomes (rest ++ k :: l₂)).1,
        i * 2 :: (retryGo outcomes (rest ++ k :: l₂)).2) = _
      rw [ih (fun j hj => h₁ j (by simp [hj]))]
      simp

theorem retryGo_sleeps_take (outcomes : Nat → ApiOutcome δ) (l : List Nat) :
    (retryGo outcomes l).2
      = (l.map (fun i => i * 2)).take (retryGo outcomes l).2.length := by
  induction l with
  | nil => rfl
  | cons i rest ih =>
    rw [retryGo]
    cases ho : outcomes i with
    | ok d => simp
    | err =>
      show (i * 2 :: (retryGo outcomes rest).2)
          = ((i :: rest).map (fun i => i * 2)).take
            (i * 2 :: (retryGo outcomes rest).2).length
      simp only [List.map_cons, List.length_cons, List.take_succ_cons]
      rw [← ih]
    | emptyFrame =>
      show (i * 2 :: (retryGo outcomes rest).2)
          = ((i :: rest).map (fun i => i * 2)).take
            (i * 2 :: (retryGo outcomes rest).2).length
      simp only [List.map_cons, List.length_cons, List.take_succ_cons]
      rw [← ih]

theorem retryGo_calls_le (outcomes : Nat → ApiOutcome δ) (l : List Nat) :
    (retryGo outcomes l).2.length
      + (if (retryGo outcomes l).1.isSome then 1 else 0) ≤ l.length := by
  induction l with
  | nil => simp [retryGo]
  | cons i rest ih =>
    rw [retryGo]
    cases ho : outcomes i with
    | ok d => simp
    | err =>
      show (i * 2 :: (retryGo outcomes rest).2).length
          + (if (retryGo outcomes rest).1.isSome then 1 else 0)
          ≤ (i :: rest).length
      simp only [List.length_cons]
      cases hr : (retryGo outcomes rest).1 <;> rw [hr] at ih <;>
        simp at ih ⊢ <;> omega
    | emptyFrame =>
      show (i * 2 :: (retryGo outcomes rest).2).length
          + (if (retryGo outcomes rest).1.isSome then 1 else 0)
          ≤ (i :: rest).length
      simp only [List.length_cons]
      cases hr : (retryGo outcomes rest).1 <;> rw [hr] at ih <;>
        simp at ih ⊢ <;> omega

theorem fetchChipSummary_first (outcomes : Nat → ApiOutcome δ)
    (parse : δ → Option ChipSummary) (l₁ l₂ : List Nat) (k : Nat) (d : δ)
    (hsplit : attemptIdxs = l₁ ++ k :: l₂)
    (h₁ : ∀ j ∈ l₁, (outcomes j).hasData = false)
    (hk : outcomes k = .ok d) :
    (retryGo outcomes attemptIdxs).1 = some d ∧
    (fetchChipSummary outcomes parse).2.length = l₁.length ∧
    (fetchChipSummary outcomes parse).1 = (parse d).getD emptyRes := by
  have h := retryGo_split outcomes l₁ l₂ k d h₁ hk
  rw [← hsplit] at h
  refine ⟨by rw [h], ?_, ?_⟩
  · rw [fetchChipSummary, h]
    cases hp : parse d <;> simp [hp]
  · rw [fetchChipSummary, h]
    cases hp : parse d <;> simp [hp]

/-- C6: `fetch_chip_summary` calls the institutional-investors API
sequentially at most 5 times; the sleeps performed are a prefix of
`[2, 4, 6, 8, 10]` seconds; it stops retrying at the first non-empty
response (sleeping `k - 1` times when attempt `k` is the first success);
on total failure it returns the fixed default
`⟨0, 0, 0, 0⟩` after all five sleeps; on a parsing error it returns the
default; and it never propagates an exception — the result is always
either the parsed summary or the default. -/
theorem c6_fetch_chip_summary_retry (δ : Type) (outcomes : Nat → ApiOutcome δ)
    (parse : δ → Option ChipSummary) :
    ((fetchChipSummary outcomes parse).2
      = [2, 4, 6, 8, 10].take (fetchChipSummary outcomes parse).2.length) ∧
    ((fetchChipSummary outcomes parse).2.length
      + (if (retryGo outcomes attemptIdxs).1.isSome then 1 else 0) ≤ 5) ∧
    (∀ k d, k ∈ attemptIdxs → outcomes k = .ok d →
      (∀ j ∈ attemptIdxs, j < k → (outcomes j).hasData = false) →
      (retryGo outcomes attemptIdxs).1 = some d ∧
      (fetchChipSummary outcomes parse).2.length = k - 1 ∧
      (fetchChipSummary outcomes parse).1 = (parse d).getD emptyRes) ∧
    ((∀ j ∈ attemptIdxs, (outcomes j).hasData = false) →
      (fetchChipSummary outcomes parse).1 = emptyRes ∧
      (fetchChipSummary outcomes parse).2 = [2, 4, 6, 8, 10]) ∧
    (∀ d, (retryGo outcomes attemptIdxs).1 = some d → parse d = none →
      (fetchChipSummary outcomes parse).1 = emptyRes) ∧
    ((fetchChipSummary outcomes parse).1 = emptyRes ∨
      ∃ d s, (retryGo outcomes attemptIdxs).1 = some d ∧ parse d = some s ∧
        (fetchChipSummary outcomes parse).1 = s) := by
  have hsl : (fetchChipSummary outcomes parse).2
      = (retryGo outcomes attemptIdxs).2 := by
    cases hr : retryGo outcomes attemptIdxs with
    | mk ro sl =>
      cases ro with
      | none => rw [fetchChipSummary, hr]
      | some d => cases hp : parse d <;> rw [fetchChipSummary, hr] <;> simp [hp]
  refine ⟨?_, ?_, ?_, ?_, ?_, ?_⟩
  · rw [hsl]
    have h := retryGo_sleeps_take outcomes attemptIdxs
    simpa [attemptIdxs] using h
  · rw [hsl]
    have h := retryGo_calls_le outcomes attemptIdxs
    simpa [attemptIdxs] using h
  · intro k d hk hok hprev
    have hk5 : k = 1 ∨ k = 2 ∨ k = 3 ∨ k = 4 ∨ k = 5 := by
      simpa [attemptIdxs] using hk
    rcases hk5 with rfl | rfl | rfl | rfl | rfl
    · simpa using fetchChipSummary_first outcomes parse [] [2, 3, 4, 5]
        1 d rfl (by simp) hok
    · have h₁ : ∀ j ∈ ([1] : List Nat), (outcomes j).hasData = false := by
        intro j hj
        have hj1 : j = 1 := by simpa using hj
        subst hj1
        exact hprev 1 (by simp [attemptIdxs]) (by omega)
      simpa using fetchChipSummary_first outcomes parse [1]
        [3, 4, 5] 2 d rfl h₁ hok
    · have h₁ : ∀ j ∈ ([1, 2] : List Nat), (outcomes j).hasData = false := by
        intro j hj
        have hj12 : j = 1 ∨ j = 2 := by simpa using hj
        rcases hj12 with rfl | rfl
        · exact hprev 1 (by simp [attemptIdxs]) (by omega)
        · exact hprev 2 (by simp [attemptIdxs]) (by omega)
      simpa using fetchChipSummary_first outcomes parse [1, 2]
        [4, 5] 3 d rfl h₁ hok
    · have h₁ : ∀ j ∈ ([1, 2, 3] : List Nat),
          (outcomes j).hasData = false := by
        intro j hj
        have hj13 : j = 1 ∨ j = 2 ∨ j = 3 := by simpa using hj
        rcases hj13 with rfl | rfl | rfl
        · exact hprev 1 (by simp [attemptIdxs]) (by omega)
        · exact hprev 2 (by simp [attemptIdxs]) (by omega)
        · exact hprev 3 (by simp [attemptIdxs]) (by omega)
      simpa using fetchChipSummary_first outcomes parse [1, 2, 3]
        [5] 4 d rfl h₁ hok
    · have h₁ : ∀ j ∈ ([1, 2, 3, 4] : List Nat),
          (outcomes j).hasData = false := by
        intro j hj
        have hj14 : j = 1 ∨ j = 2 ∨ j = 3 ∨ j = 4 := by simpa using hj
        rcases hj14 with rfl | rfl | rfl | rfl
        · exact hprev 1 (by simp [attemptIdxs]) (by omega)
        · exact hprev 2 (by simp [attemptIdxs]) (by omega)
        · exact hprev 3 (by simp [attemptIdxs]) (by omega)
        · exact hprev 4 (by simp [attemptIdxs]) (by omega)
      simpa using fetchChipSummary_first outcomes parse
        [1, 2, 3, 4] [] 5 d rfl h₁ hok
  · intro hfail
    have h := retryGo_all_fail outcomes attemptIdxs hfail
    have hmap : attemptIdxs.map (fun i => i * 2) = [2, 4, 6, 8, 10] := by
      simp [attemptIdxs]
    rw [hmap] at h
    exact ⟨by rw [fetchChipSummary, h], by rw [fetchChipSummary, h]⟩
  · intro d hd hp
    cases hr : retryGo outcomes attemptIdxs with
    | mk ro sl =>
      rw [hr] at hd
      simp only at hd
      subst hd
      rw [fetchChipSummary, hr]
      simp [hp]
  · cases hr : retryGo outcomes attemptIdxs with
    | mk ro sl =>
      cases ro with
      | none => exact Or.inl (by rw [fetchChipSummary, hr])
      | some d =>
        cases hp : parse d with
        | none =>
          exact Or.inl (by rw [fetchChipSummary, hr]; simp [hp])
        | some s =>
          exact Or.inr ⟨d, s, by simp [hr], hp,
            by rw [fetchChipSummary, hr]; simp [hp]⟩

/-- Witness for C6: an environment that throws on attempt 1, returns an
empty frame on attempt 2 and data on attempt 3, with a successful parse:
the loop stops at attempt 3 after sleeping `[2, 4]`, and returns the
parsed summary. -/
theorem c6_fetch_chip_summary_retry_witness :
    (retryGo (fun k => if k = 3 then ApiOutcome.ok (7 : ℤ) else
        if k = 2 then .emptyFrame else .err) attemptIdxs).1 = some 7 ∧
    (fetchChipSummary (fun k => if k = 3 then ApiOutcome.ok (7 : ℤ) else
        if k = 2 then .emptyFrame else .err)
      (fun d => some ⟨d, 0, d, 1⟩)).2.length = 2 ∧
    (fetchChipSummary (fun k => if k = 3 then ApiOutcome.ok (7 : ℤ) else
        if k = 2 then .emptyFrame else .err)
      (fun d => some ⟨d, 0, d, 1⟩)).1 = ⟨7, 0, 7, 1⟩ := by
  have h := (c6_fetch_chip_summary_retry ℤ
    (fun k => if k = 3 then ApiOutcome.ok (7 : ℤ) else
      if k = 2 then .emptyFrame else .err)
    (fun d => some ⟨d, 0, d, 1⟩)).2.2.1 3 7
    (by simp [attemptIdxs]) (by norm_num)
    (by
      intro j hj hlt
      have : j = 1 ∨ j = 2 := by
        simp [attemptIdxs] at hj
        omega
      rcases this with rfl | rfl <;> rfl)
  exact ⟨h.1, h.2.1, h.2.2⟩

/- ── moving-average position labels ───────────────────────────────────── -/

/-- The truthiness test `ma20 and close < ma20` of `get_ma_position`
(`src/generate_monthly_report.py` line 160): `None` and `0.0` are both
falsy in Python, so the branch also requires `ma20 != 0`. -/
def ma20Truthy (m : Option ℚ) (close : ℚ) : Bool :=
  match m with
  | some v => decide (v ≠ 0) && decide (close < v)
  | none => false

/-- The comparison cascade of `get_ma_position`
(`src/generate_monthly_report.py` lines 151-163) on the extracted last
row: `🟡 資料不足` when `MA5` or `MA10` is undefined, otherwise one of
the four labels (`close > ma5 > ma10` is the chained comparison). -/
def maPositionCore (close : ℚ) (m5 m10 m20 : Option ℚ) : String × String :=
  match m5, m10 with
  | some ma5, some ma10 =>
    if ma5 < close ∧ ma10 < ma5 then ("🔥 多頭排列", "strong")
    else if ma5 < close then ("✅ 站上 5MA", "ok")
    else if ma20Truthy m20 close then ("💀 跌破月線", "danger")
    else ("🟡 均線糾結", "neutral")
  | _, _ => ("🟡 資料不足", "neutral")

/-- `get_ma_position` (`src/generate_monthly_report.py` lines 145-163):
`無資料` on an empty or single-row table, otherwise the comparison
cascade on the last row. -/
def getMAPosition (df : List (PriceRowMA α)) : String × String :=
  if df.length < 2 then ("無資料", "neutral")
  else
    match df.getLast? with
    | none => ("無資料", "neutral")
    | some lastRow =>
      maPositionCore lastRow.close lastRow.ma5 lastRow.ma10 lastRow.ma20

/-- The `ma20 is not None and close < ma20` test of
`check_right_side_signal` (`src/utils/data_engine.py` line 119) —
unlike `get_ma_position` this one is an explicit `None` test, with no
truthiness on the value. -/
def ma20Below (m : Option ℚ) (close : ℚ) : Bool :=
  match m with
  | some v => decide (close < v)
  | none => false

/-- The comparison cascade of `check_right_side_signal`
(`src/utils/data_engine.py` lines 100-122) on the extracted last and
previous rows: `🟡 資料不足` when `MA5` or `MA10` of the last row is
undefined; otherwise one of four signal labels from the position of the
close relative to `MA5`/`MA10`/`MA20` and the `MA5` slope (an undefined
previous `MA5` defaults to the current one, making the slope flat). -/
def rightSideCore (close : ℚ) (m5 m10 m20 prev5 : Option ℚ) : String :=
  match m5, m10 with
  | some ma5, some ma10 =>
    if (ma5 < close ∧ ma10 < close) ∧ prev5.getD ma5 < ma5 then
      "🔥 強勢多頭 (右側確認)"
    else if ma5 < close ∧ ma10 < close then "✅ 偏多整理"
    else if ma20Below m20 close then "💀 跌破月線 (謹慎)"
    else "🟡 觀望"
  | _, _ => "🟡 資料不足"

/-- `DataEngine.check_right_side_signal`
(`src/utils/data_engine.py` lines 88-122): `無資料` on an empty or
single-row table, otherwise the comparison cascade on the last two
rows (`df.iloc[-1]` and `df.iloc[-2]`). -/
def checkRightSideSignal (df : List (PriceRowMA α)) : String :=
  if df.length < 2 then "無資料"
  else
    match df.getLast?, df.dropLast.getLast? with
    | some lastRow, some prevRow =>
      rightSideCore lastRow.close lastRow.ma5 lastRow.ma10 lastRow.ma20
        prevRow.ma5
    | _, _ => "無資料"

theorem maPositionCore_mem (close : ℚ) (m5 m10 m20 : Option ℚ) :
    (maPositionCore close m5 m10 m20).1
      ∈ ["🟡 資料不足", "🔥 多頭排列", "✅ 站上 5MA", "💀 跌破月線",
         "🟡 均線糾結"] := by
  cases m5 with
  | none => cases m10 <;> simp [maPositionCore]
  | some a =>
    cases m10 with
    | none => simp [maPositionCore]
    | some b =>
      simp only [maPositionCore]
      split
      · simp
      · split
        · simp
        · split <;> simp

theorem maPositionCore_noMA (close : ℚ) (m5 m10 m20 : Option ℚ)
    (h : m5 = none ∨ m10 = none) :
    (maPositionCore close m5 m10 m20).1 = "🟡 資料不足" := by
  rcases h with rfl | rfl
  · cases m10 <;> rfl
  · cases m5 <;> rfl

theorem rightSideCore_mem_of_defined (close : ℚ) (m20 prev5 : Option ℚ)
    (a b : ℚ) :
    rightSideCore close (some a) (some b) m20 prev5
      ∈ ["🔥 強勢多頭 (右側確認)", "✅ 偏多整理", "💀 跌破月線 (謹慎)",
         "🟡 觀望"] := by
  simp only [rightSideCore]
  split
  · simp
  · split
    · simp
    · split <;> simp

theorem rightSideCore_noMA (close : ℚ) (m5 m10 m20 prev5 : Option ℚ)
    (h : m5 = none ∨ m10 = none) :
    rightSideCore close m5 m10 m20 prev5 = "🟡 資料不足" := by
  rcases h with rfl | rfl
  · cases m10 <;> rfl
  · cases m5 <;> rfl

theorem getLast?_isSome_of_two_le (df : List (PriceRowMA α))
    (h2 : 2 ≤ df.length) : ∃ lastRow, df.getLast? = some lastRow := by
  cases hl : df.getLast? with
  | none =>
    rw [List.getLast?_eq_none_iff] at hl
    subst hl
    simp at h2
  | some r => exact ⟨r, rfl⟩

theorem dropLast_getLast?_isSome_of_two_le (df : List (PriceRowMA α))
    (h2 : 2 ≤ df.length) : ∃ prevRow, df.dropLast.getLast? = some prevRow := by
  cases hp : df.dropLast.getLast? with
  | none =>
    rw [List.getLast?_eq_none_iff] at hp
    have := congrArg List.length hp
    rw [List.length_dropLast] at this
    simp at this
    omega
  | some r => exact ⟨r, rfl⟩

theorem getMAPosition_two_le (df : List (PriceRowMA α)) (lastRow : PriceRowMA α)
    (h2 : 2 ≤ df.length) (hl : df.getLast? = some lastRow) :
    getMAPosition df
      = maPositionCore lastRow.close lastRow.ma5 lastRow.ma10 lastRow.ma20 := by
  rw [getMAPosition, if_neg (by omega), hl]

theorem checkRightSideSignal_two_le (df : List (PriceRowMA α))
    (lastRow prevRow : PriceRowMA α) (h2 : 2 ≤ df.length)
    (hl : df.getLast? = some lastRow)
    (hp : df.dropLast.getLast? = some prevRow) :
    checkRightSideSignal df
      = rightSideCore lastRow.close lastRow.ma5 lastRow.ma10 lastRow.ma20
        prevRow.ma5 := by
  rw [checkRightSideSignal, if_neg (by omega), hl, hp]

/-- Two-row table whose final row has undefined moving averages, used by
the C7 counterexample. -/
def exTwoRowsNoMA : List (PriceRowMA Unit) :=
  [⟨1, (), none, none, none⟩, ⟨2, (), none, none, none⟩]

/-- C7 counterexample: the claim says `check_right_side_signal` returns
`無資料` on empty or single-row input and *otherwise one of its four
signal labels* decided by price/MA comparisons.  On a two-row table whose
last row has undefined `MA5`, the function returns a fifth label,
`🟡 資料不足`, which is none of the four comparison-decided labels and
not `無資料`. -/
theorem c7_counterexample :
    2 ≤ exTwoRowsNoMA.length ∧
    checkRightSideSignal exTwoRowsNoMA = "🟡 資料不足" ∧
    ¬ (checkRightSideSignal exTwoRowsNoMA
        ∈ ["🔥 強勢多頭 (右側確認)", "✅ 偏多整理", "💀 跌破月線 (謹慎)",
           "🟡 觀望"]) ∧
    checkRightSideSignal exTwoRowsNoMA ≠ "無資料" := by
  refine ⟨by decide, by decide, by decide, by decide⟩

/-- C7 amended: both position functions are total classifiers into fixed
six-label sets.  `get_ma_position` returns exactly one of
`無資料 / 🟡 資料不足 / 🔥 多頭排列 / ✅ 站上 5MA / 💀 跌破月線 /
🟡 均線糾結`, with `無資料` exactly on tables of fewer than 2 rows and
`🟡 資料不足` when the last row's `MA5` or `MA10` is undefined;
`check_right_side_signal` analogously returns `無資料` on empty or
single-row input, `🟡 資料不足` when the last row's `MA5` or `MA10` is
undefined, and otherwise one of its four comparison-decided signal
labels. -/
theorem c7_label_classifiers_amended (df : List (PriceRowMA α)) :
    ((getMAPosition df).1 ∈ ["無資料", "🟡 資料不足", "🔥 多頭排列",
      "✅ 站上 5MA", "💀 跌破月線", "🟡 均線糾結"]) ∧
    (df.length < 2 → (getMAPosition df).1 = "無資料") ∧
    (2 ≤ df.length → ∀ lastRow, df.getLast? = some lastRow →
      (lastRow.ma5 = none ∨ lastRow.ma10 = none) →
      (getMAPosition df).1 = "🟡 資料不足") ∧
    (checkRightSideSignal df ∈ ["無資料", "🟡 資料不足",
      "🔥 強勢多頭 (右側確認)", "✅ 偏多整理", "💀 跌破月線 (謹慎)",
      "🟡 觀望"]) ∧
    (df.length < 2 → checkRightSideSignal df = "無資料") ∧
    (2 ≤ df.length → ∀ lastRow, df.getLast? = some lastRow →
      (lastRow.ma5 = none ∨ lastRow.ma10 = none) →
      checkRightSideSignal df = "🟡 資料不足") ∧
    (2 ≤ df.length → ∀ lastRow m5 m10, df.getLast? = some lastRow →
      lastRow.ma5 = some m5 → lastRow.ma10 = some m10 →
      checkRightSideSignal df ∈ ["🔥 強勢多頭 (右側確認)", "✅ 偏多整理",
        "💀 跌破月線 (謹慎)", "🟡 觀望"]) := by
  refine ⟨?_, ?_, ?_, ?_, ?_, ?_, ?_⟩
  · by_cases h2 : df.length < 2
    · rw [getMAPosition, if_pos h2]
      simp
    · obtain ⟨lastRow, hl⟩ := getLast?_isSome_of_two_le df (by omega)
      rw [getMAPosition_two_le df lastRow (by omega) hl]
      have := maPositionCore_mem lastRow.close lastRow.ma5 lastRow.ma10
        lastRow.ma20
      simp at this ⊢
      tauto
  · intro h2
    rw [getMAPosition, if_pos h2]
  · intro h2 lastRow hl hnone
    rw [getMAPosition_two_le df lastRow h2 hl]
    exact maPositionCore_noMA _ _ _ _ hnone
  · by_cases h2 : df.length < 2
    · rw [checkRightSideSignal, if_pos h2]
      simp
    · obtain ⟨lastRow, hl⟩ := getLast?_isSome_of_two_le df (by omega)
      obtain ⟨prevRow, hp⟩ := dropLast_getLast?_isSome_of_two_le df (by omega)
      rw [checkRightSideSignal_two_le df lastRow prevRow (by omega) hl hp]
      cases h5 : lastRow.ma5 with
      | none =>
        rw [rightSideCore_noMA _ _ _ _ _ (Or.inl rfl)]
        simp
      | some a =>
        cases h10 : lastRow.ma10 with
        | none =>
          rw [rightSideCore_noMA _ _ _ _ _ (Or.inr rfl)]
          simp
        | some b =>
          have := rightSideCore_mem_of_defined lastRow.close lastRow.ma20
            prevRow.ma5 a b
          simp at this ⊢
          tauto
  · intro h2
    rw [checkRightSideSignal, if_pos h2]
  · intro h2 lastRow hl hnone
    obtain ⟨prevRow, hp⟩ := dropLast_getLast?_isSome_of_two_le df h2
    rw [checkRightSideSignal_two_le df lastRow prevRow h2 hl hp]
    exact rightSideCore_noMA _ _ _ _ _ hnone
  · intro h2 lastRow m5 m10 hl h5 h10
    obtain ⟨prevRow, hp⟩ := dropLast_getLast?_isSome_of_two_le df h2
    rw [checkRightSideSignal_two_le df lastRow prevRow h2 hl hp, h5, h10]
    exact rightSideCore_mem_of_defined lastRow.close lastRow.ma20 prevRow.ma5
      m5 m10

/-- Witness for the amended C7 at concrete tables: the no-MA two-row
table classifies as `🟡 資料不足` in both functions, and a two-row table
with fully defined MAs lands in the four-label signal set. -/
theorem c7_label_classifiers_amended_witness :
    (getMAPosition exTwoRowsNoMA).1 = "🟡 資料不足" ∧
    checkRightSideSignal exTwoRowsNoMA = "🟡 資料不足" ∧
    (checkRightSideSignal
        [(⟨10, (), some 8, none, none⟩ : PriceRowMA Unit),
         ⟨12, (), some 9, some 8, some 7⟩]
      ∈ ["🔥 強勢多頭 (右側確認)", "✅ 偏多整理", "💀 跌破月線 (謹慎)",
         "🟡 觀望"]) := by
  refine ⟨?_, ?_, ?_⟩
  · exact (c7_label_classifiers_amended exTwoRowsNoMA).2.2.1 (by decide)
      ⟨2, (), none, none, none⟩ (by decide) (Or.inl rfl)
  · exact (c7_label_classifiers_amended exTwoRowsNoMA).2.2.2.2.2.1 (by decide)
      ⟨2, (), none, none, none⟩ (by decide) (Or.inl rfl)
  · exact (c7_label_classifiers_amended
      [(⟨10, (), some 8, none, none⟩ : PriceRowMA Unit),
       ⟨12, (), some 9, some 8, some 7⟩]).2.2.2.2.2.2 (by decide)
      ⟨12, (), some 9, some 8, some 7⟩ 9 8 (by decide) rfl rfl

/- ── chip strength (calc_chip_strength) ───────────────────────────────── -/

/-- The chip table handed to `calc_chip_strength`
(`DataEngine.get_chip_data`, `src/utils/data_engine.py` lines 36-54):
pivoted without `fill_value`, so cells may be NaN (`Option ℚ`).
`foreignCol` / `trustCol` are the columns whose names contain
`Foreign`/`外資` resp. `Trust`/`投信` (lines 279-280 of
`src/utils/tw_chip_scanner.py`), `none` when no name matches; all other
columns are in `otherCols`. -/
structure ChipDF where
  nrows : Nat
  foreignCol : Option (List (Option ℚ))
  trustCol : Option (List (Option ℚ))
  otherCols : List (List (Option ℚ))

/-- pandas `DataFrame.empty`: true when the frame has no rows or no
columns. -/
def ChipDF.isEmptyDF (df : ChipDF) : Bool :=
  df.nrows == 0
    || (df.foreignCol.isNone && df.trustCol.isNone && df.otherCols.isEmpty)

/-- Sum of the last `k` entries of a column of an `nrows`-row frame,
skipping NaN (pandas `series.tail(k).sum()`). -/
def sumTail (nrows k : Nat) (c : List (Option ℚ)) : ℚ :=
  ((c.drop (nrows - k)).filterMap id).sum

/-- The record returned by `calc_chip_strength`
(`src/utils/tw_chip_scanner.py` lines 337-346). -/
structure ChipStrength where
  foreign_streak : ℤ
  trust_streak : ℤ
  foreign_5d_sum : ℚ
  trust_5d_sum : ℚ
  total_10d_sum : ℚ
  chip_score : ℤ
  chip_grade : String
  chip_color : String
deriving DecidableEq

/-- The default record for an empty table
(`src/utils/tw_chip_scanner.py` lines 270-276). -/
def emptyChipStrength : ChipStrength := ⟨0, 0, 0, 0, 0, 0, "無資料", "gray"⟩

/-- Python `round(x, 1)` idealised on rationals: round `10 x` half to
even, divide by `10`. -/
def roundTo1 (q : ℚ) : ℚ :=
  let x := q * 10
  let f := ⌊x⌋
  let r := x - (f : ℚ)
  (if r < 1 / 2 then (f : ℚ)
   else if 1 / 2 < r then (f : ℚ) + 1
   else if f % 2 = 0 then (f : ℚ) else (f : ℚ) + 1) / 10

/-- Signed foreign streak of the table
(`src/utils/tw_chip_scanner.py` line 298), `0` without a foreign column. -/
def chipForeignStreak (df : ChipDF) : ℤ :=
  match df.foreignCol with
  | some c => signedStreak c
  | none => 0

/-- Signed trust streak of the table
(`src/utils/tw_chip_scanner.py` line 299), `0` without a trust column. -/
def chipTrustStreak (df : ChipDF) : ℤ :=
  match df.trustCol with
  | some c => signedStreak c
  | none => 0

/-- Foreign 5-day sum (`src/utils/tw_chip_scanner.py` line 302). -/
def chipForeign5d (df : ChipDF) : ℚ :=
  match df.foreignCol with
  | some c => sumTail df.nrows 5 c
  | none => 0

/-- Trust 5-day sum (`src/utils/tw_chip_scanner.py` line 303). -/
def chipTrust5d (df : ChipDF) : ℚ :=
  match df.trustCol with
  | some c => sumTail df.nrows 5 c
  | none => 0

/-- All-column 10-day total (`chip_df.tail(10).sum().sum()`,
`src/utils/tw_chip_scanner.py` line 304). -/
def chipTotal10d (df : ChipDF) : ℚ :=
  ((df.foreignCol.toList ++ df.trustCol.toList ++ df.otherCols).map
    (fun c => sumTail df.nrows 10 c)).sum

/-- The direction term of the score: `+mag` for a positive sum, `-mag`
for a negative one, `0` for zero
(`src/utils/tw_chip_scanner.py` lines 313-321). -/
def dirTerm (q : ℚ) (mag : ℤ) : ℤ :=
  if 0 < q then mag else if q < 0 then -mag else 0

/-- The clamp `min(max(x, lo), hi)` used for the streak terms
(`src/utils/tw_chip_scanner.py` lines 309-311). -/
def clampI (x lo hi : ℤ) : ℤ := min (max x lo) hi

/-- The raw score before the final clamp
(`src/utils/tw_chip_scanner.py` lines 307-321): base 50, foreign-streak
term clamped to `[-20, 20]`, trust-streak term clamped to `[-15, 15]`,
5-day foreign direction `±10`, 5-day trust direction `±5`. -/
def rawChipScore (df : ChipDF) : ℤ :=
  50 + clampI (chipForeignStreak df * 4) (-20) 20
    + clampI (chipTrustStreak df * 3) (-15) 15
    + dirTerm (chipForeign5d df) 10
    + dirTerm (chipTrust5d df) 5

/-- The final score `max(0, min(100, score))`
(`src/utils/tw_chip_scanner.py` line 323). -/
def chipScore (df : ChipDF) : ℤ := max 0 (min 100 (rawChipScore df))

/-- The grade / colour thresholds
(`src/utils/tw_chip_scanner.py` lines 326-335). -/
def chipGrade (s : ℤ) : String × String :=
  if 80 ≤ s then ("🔥 極強", "#FF4B4B")
  else if 65 ≤ s then ("💪 偏強", "#FF8C00")
  else if 45 ≤ s then ("😐 中性", "#FFD700")
  else if 25 ≤ s then ("⚠️ 偏弱", "#87CEEB")
  else ("💀 極弱", "#4169E1")

/-- `calc_chip_strength` (`src/utils/tw_chip_scanner.py` lines 256-346):
the default record on an empty table, otherwise streaks, rounded sums,
clamped score and grade. -/
def calcChipStrength (df : ChipDF) : ChipStrength :=
  if df.isEmptyDF then emptyChipStrength
  else
    ⟨chipForeignStreak df, chipTrustStreak df,
     roundTo1 (chipForeign5d df), roundTo1 (chipTrust5d df),
     roundTo1 (chipTotal10d df), chipScore df,
     (chipGrade (chipScore df)).1, (chipGrade (chipScore df)).2⟩

/-- C8: the `chip_score` of `calc_chip_strength` always lies in
`[0, 100]`; on a non-empty table it equals the clamp to `[0, 100]` of
`50` plus a foreign-streak term clamped to `[-20, 20]`, a trust-streak
term clamped to `[-15, 15]`, a 5-day foreign direction term in
`{-10, 0, 10}` and a 5-day trust direction term in `{-5, 0, 5}`; an
empty table yields exactly the default record with score `0` and grade
`無資料`. -/
theorem c8_chip_score_bounds (df : ChipDF) :
    (0 ≤ (calcChipStrength df).chip_score ∧
      (calcChipStrength df).chip_score ≤ 100) ∧
    (df.isEmptyDF = false →
      ∃ f t d₁ d₂ : ℤ,
        (calcChipStrength df).chip_score
          = max 0 (min 100 (50 + f + t + d₁ + d₂)) ∧
        f = min (max ((calcChipStrength df).foreign_streak * 4) (-20)) 20 ∧
        t = min (max ((calcChipStrength df).trust_streak * 3) (-15)) 15 ∧
        (d₁ = -10 ∨ d₁ = 0 ∨ d₁ = 10) ∧ (d₂ = -5 ∨ d₂ = 0 ∨ d₂ = 5)) ∧
    (df.isEmptyDF = true → calcChipStrength df = emptyChipStrength ∧
      (calcChipStrength df).chip_score = 0 ∧
      (calcChipStrength df).chip_grade = "無資料") := by
  refine ⟨?_, ?_, ?_⟩
  · by_cases he : df.isEmptyDF
    · rw [calcChipStrength, if_pos he]
      exact ⟨le_refl 0, by norm_num [emptyChipStrength]⟩
    · rw [calcChipStrength, if_neg he]
      show 0 ≤ chipScore df ∧ chipScore df ≤ 100
      rw [chipScore]
      constructor
      · exact le_max_left 0 _
      · exact max_le (by norm_num) (min_le_left 100 _)
  · intro he
    rw [calcChipStrength, if_neg (by rw [he]; exact Bool.false_ne_true)]
    refine ⟨clampI (chipForeignStreak df * 4) (-20) 20,
      clampI (chipTrustStreak df * 3) (-15) 15,
      dirTerm (chipForeign5d df) 10, dirTerm (chipTrust5d df) 5,
      ?_, rfl, rfl, ?_, ?_⟩
    · show chipScore df = _
      rw [chipScore, rawChipScore]
    · rw [dirTerm]
      split
      · right; right; rfl
      · split
        · left; rfl
        · right; left; rfl
    · rw [dirTerm]
      split
      · right; right; rfl
      · split
        · left; rfl
        · right; left; rfl
  · intro he
    rw [calcChipStrength, if_pos he]
    exact ⟨rfl, rfl, rfl⟩

/-- Witness for C8 at concrete tables: the empty table yields the
default record, and a six-day buy table has its score inside `[0, 100]`
with the clamped-terms decomposition instantiated. -/
theorem c8_chip_score_bounds_witness :
    calcChipStrength ⟨0, none, none, []⟩ = emptyChipStrength ∧
    (0 ≤ (calcChipStrength ⟨6,
        some [some 1, some 2, some 3, some 4, some 5, some 6],
        some [some 1, some 1, some 1, some 1, some 1, some 1], []⟩).chip_score
      ∧ (calcChipStrength ⟨6,
        some [some 1, some 2, some 3, some 4, some 5, some 6],
        some [some 1, some 1, some 1, some 1, some 1, some 1], []⟩).chip_score
        ≤ 100) ∧
    (∃ f t d₁ d₂ : ℤ,
      (calcChipStrength ⟨6,
          some [some 1, some 2, some 3, some 4, some 5, some 6],
          some [some 1, some 1, some 1, some 1, some 1, some 1],
          []⟩).chip_score
        = max 0 (min 100 (50 + f + t + d₁ + d₂)) ∧
      (d₁ = -10 ∨ d₁ = 0 ∨ d₁ = 10) ∧ (d₂ = -5 ∨ d₂ = 0 ∨ d₂ = 5)) := by
  refine ⟨((c8_chip_score_bounds ⟨0, none, none, []⟩).2.2 rfl).1,
    (c8_chip_score_bounds _).1, ?_⟩
  obtain ⟨f, t, d₁, d₂, hs, _, _, hd₁, hd₂⟩ :=
    (c8_chip_score_bounds ⟨6,
      some [some 1, some 2, some 3, some 4, some 5, some 6],
      some [some 1, some 1, some 1, some 1, some 1, some 1], []⟩).2.1 rfl
  exact ⟨f, t, d₁, d₂, hs, hd₁, hd₂⟩
